import Mathlib

/-!
# Verification of the y10n language-negotiation and tree-merge core

A shallow embedding of `src/lib.rs` of the `y10n` crate.

* `Yaml` embeds `serde_yaml::Value`; mappings are association lists with
  structurally-equal keys (serde mappings preserve insertion order and compare
  keys with structural `PartialEq`).
* `mergeYaml` embeds `merge_yaml`; `Y10n.localize` embeds `Y10n::localize`.
* `langCaptures` embeds the behaviour of `LANG_REGEX` (a leftmost-first,
  unanchored regex whose groups after the mandatory `code` group are all
  optional, so its captures are computed by a deterministic scan); a word
  character is modelled at ASCII granularity.
* `Lang.fromChars` embeds `Language::from`; `parse_accept_language`
  embeds the function of the same name.
* Floating-point quality values are modelled as rationals: every numeric
  literal the quality capture group can produce is a short decimal, and the
  claims only compare such decimals for equality and order, where `f64`
  rounding is irrelevant to the outcome.
-/

/-- Embedding of `serde_yaml::Value`: `map` is an insertion-ordered list of
key/value entries (serde's `Mapping` preserves order and holds distinct keys). -/
inductive Yaml where
  | null
  | bool (b : Bool)
  | num (n : ℚ)
  | str (s : String)
  | seq (items : List Yaml)
  | map (entries : List (Yaml × Yaml))

mutual

/-- Structural decidable equality for `Yaml` (the `PartialEq` used by
`Mapping::get` and `Mapping::contains_key`). -/
def Yaml.decEq : (a b : Yaml) → Decidable (a = b)
  | Yaml.null, Yaml.null => isTrue rfl
  | Yaml.null, Yaml.bool _ => isFalse (fun h => Yaml.noConfusion h)
  | Yaml.null, Yaml.num _ => isFalse (fun h => Yaml.noConfusion h)
  | Yaml.null, Yaml.str _ => isFalse (fun h => Yaml.noConfusion h)
  | Yaml.null, Yaml.seq _ => isFalse (fun h => Yaml.noConfusion h)
  | Yaml.null, Yaml.map _ => isFalse (fun h => Yaml.noConfusion h)
  | Yaml.bool _, Yaml.null => isFalse (fun h => Yaml.noConfusion h)
  | Yaml.bool a, Yaml.bool b =>
    if h : a = b then isTrue (by rw [h])
    else isFalse (by intro hh; injection hh; contradiction)
  | Yaml.bool _, Yaml.num _ => isFalse (fun h => Yaml.noConfusion h)
  | Yaml.bool _, Yaml.str _ => isFalse (fun h => Yaml.noConfusion h)
  | Yaml.bool _, Yaml.seq _ => isFalse (fun h => Yaml.noConfusion h)
  | Yaml.bool _, Yaml.map _ => isFalse (fun h => Yaml.noConfusion h)
  | Yaml.num _, Yaml.null => isFalse (fun h => Yaml.noConfusion h)
  | Yaml.num _, Yaml.bool _ => isFalse (fun h => Yaml.noConfusion h)
  | Yaml.num a, Yaml.num b =>
    if h : a = b then isTrue (by rw [h])
    else isFalse (by intro hh; injection hh; contradiction)
  | Yaml.num _, Yaml.str _ => isFalse (fun h => Yaml.noConfusion h)
  | Yaml.num _, Yaml.seq _ => isFalse (fun h => Yaml.noConfusion h)
  | Yaml.num _, Yaml.map _ => isFalse (fun h => Yaml.noConfusion h)
  | Yaml.str _, Yaml.null => isFalse (fun h => Yaml.noConfusion h)
  | Yaml.str _, Yaml.bool _ => isFalse (fun h => Yaml.noConfusion h)
  | Yaml.str _, Yaml.num _ => isFalse (fun h => Yaml.noConfusion h)
  | Yaml.str a, Yaml.str b =>
    if h : a = b then isTrue (by rw [h])
    else isFalse (by intro hh; injection hh; contradiction)
  | Yaml.str _, Yaml.seq _ => isFalse (fun h => Yaml.noConfusion h)
  | Yaml.str _, Yaml.map _ => isFalse (fun h => Yaml.noConfusion h)
  | Yaml.seq _, Yaml.null => isFalse (fun h => Yaml.noConfusion h)
  | Yaml.seq _, Yaml.bool _ => isFalse (fun h => Yaml.noConfusion h)
  | Yaml.seq _, Yaml.num _ => isFalse (fun h => Yaml.noConfusion h)
  | Yaml.seq _, Yaml.str _ => isFalse (fun h => Yaml.noConfusion h)
  | Yaml.seq a, Yaml.seq b =>
    match Yaml.decEqList a b with
    | isTrue h => isTrue (by rw [h])
    | isFalse h => isFalse (by intro hh; injection hh; contradiction)
  | Yaml.seq _, Yaml.map _ => isFalse (fun h => Yaml.noConfusion h)
  | Yaml.map _, Yaml.null => isFalse (fun h => Yaml.noConfusion h)
  | Yaml.map _, Yaml.bool _ => isFalse (fun h => Yaml.noConfusion h)
  | Yaml.map _, Yaml.num _ => isFalse (fun h => Yaml.noConfusion h)
  | Yaml.map _, Yaml.str _ => isFalse (fun h => Yaml.noConfusion h)
  | Yaml.map _, Yaml.seq _ => isFalse (fun h => Yaml.noConfusion h)
  | Yaml.map a, Yaml.map b =>
    match Yaml.decEqEntries a b with
    | isTrue h => isTrue (by rw [h])
    | isFalse h => isFalse (by intro hh; injection hh; contradiction)
termination_by a _ => sizeOf a

/-- Elementwise decidable equality for sequences of `Yaml` values. -/
def Yaml.decEqList : (a b : List Yaml) → Decidable (a = b)
  | [], [] => isTrue rfl
  | [], _ :: _ => isFalse (fun h => List.noConfusion h)
  | _ :: _, [] => isFalse (fun h => List.noConfusion h)
  | x :: xs, y :: ys =>
    match Yaml.decEq x y with
    | isTrue h1 =>
      match Yaml.decEqList xs ys with
      | isTrue h2 => isTrue (by rw [h1, h2])
      | isFalse h2 => isFalse (by intro hh; injection hh; contradiction)
    | isFalse h1 => isFalse (by intro hh; injection hh; contradiction)
termination_by a _ => sizeOf a

/-- Entrywise decidable equality for mapping entry lists. -/
def Yaml.decEqEntries : (a b : List (Yaml × Yaml)) → Decidable (a = b)
  | [], [] => isTrue rfl
  | [], _ :: _ => isFalse (fun h => List.noConfusion h)
  | _ :: _, [] => isFalse (fun h => List.noConfusion h)
  | (k1, v1) :: xs, (k2, v2) :: ys =>
    match Yaml.decEq k1 k2 with
    | isTrue hk =>
      match Yaml.decEq v1 v2 with
      | isTrue hv =>
        match Yaml.decEqEntries xs ys with
        | isTrue ht => isTrue (by rw [hk, hv, ht])
        | isFalse ht => isFalse (by intro hh; injection hh; contradiction)
      | isFalse hv =>
        isFalse (by
          intro hh
          injection hh with hp _
          exact hv (congrArg Prod.snd hp))
    | isFalse hk =>
      isFalse (by
        intro hh
        injection hh with hp _
        exact hk (congrArg Prod.fst hp))
termination_by a _ => sizeOf a

end

instance : DecidableEq Yaml := Yaml.decEq

/-- `Value::is_sequence`. -/
def Yaml.is_sequence : Yaml → Bool
  | Yaml.seq _ => true
  | _ => false

/-- `Value::is_mapping`. -/
def Yaml.is_mapping : Yaml → Bool
  | Yaml.map _ => true
  | _ => false

/-- `Value::as_sequence().unwrap()` — only ever applied under an
`is_sequence` guard in the source. -/
def Yaml.seqItems : Yaml → List Yaml
  | Yaml.seq xs => xs
  | _ => []

/-- `Mapping::get` / the test behind `Mapping::contains_key`: the first entry
whose key equals `k` (serde mappings hold distinct keys, so first = only). -/
def mapLookup : List (Yaml × Yaml) → Yaml → Option Yaml
  | [], _ => none
  | (k', v) :: rest, k => if k' = k then some v else mapLookup rest k

/-- `a[&k] = v` (the `IndexMut` write on a `Mapping`): replace the value of the
first entry whose key is `k`, keeping its position.  Only ever applied under a
`contains_key` guard in the source. -/
def setKey : List (Yaml × Yaml) → Yaml → Yaml → List (Yaml × Yaml)
  | [], _, _ => []
  | (k', v') :: rest, k, v =>
    if k' = k then (k', v) :: rest else (k', v') :: setKey rest k v

mutual

/-- Embedding of `merge_yaml(a: &mut Value, b: Value)`; the Rust function
mutates `a` in place, here the merged value is returned. -/
def mergeYaml : Yaml → Yaml → Yaml
  | Yaml.map a, Yaml.map b => Yaml.map (mergeEntries a b)
  | _, b => b
termination_by _ b => (sizeOf b, 0)

/-- The `for (k, v) in b` loop of `merge_yaml`, iterating the source entries in
order over the destination entry list. -/
def mergeEntries (a : List (Yaml × Yaml)) : List (Yaml × Yaml) → List (Yaml × Yaml)
  | [] => a
  | (k, v) :: rest => mergeEntries (mergeOne a k v) rest
termination_by b => (sizeOf b, 2)

/-- One iteration of the loop in `merge_yaml`: the three-way branch on
`v.is_sequence() && a.contains_key(&k) && a[&k].is_sequence()`,
`!a.contains_key(&k)`, and the recursive `merge_yaml(&mut a[&k], v)` call
(phrased by first looking the key up, which decides `contains_key`). -/
def mergeOne (a : List (Yaml × Yaml)) (k v : Yaml) : List (Yaml × Yaml) :=
  match mapLookup a k with
  | some w =>
    if v.is_sequence && w.is_sequence then
      setKey a k (Yaml.seq (w.seqItems ++ v.seqItems))
    else
      setKey a k (mergeYaml w v)
  | none => a ++ [(k, v)]
termination_by (sizeOf v, 1)

end

/-- `HashMap::get` on the translation store (iteration order of the store is
never observed by `localize`, so an association list models it faithfully). -/
def storeGet : List (String × Yaml) → String → Option Yaml
  | [], _ => none
  | (k, v) :: rest, code => if k = code then some v else storeGet rest code

/-- `\w` of the `LANG_REGEX` pattern, at ASCII granularity. -/
def isWordChar (c : Char) : Bool := c.isAlphanum || c = '_'

/-- The unanchored search of `Regex::captures`: the leftmost position at which
the pattern can match is the first word character, because the leading
`(?P<code>\w+)` group is the only mandatory part of the pattern. -/
def findMatch : List Char → Option (List Char)
  | [] => none
  | c :: cs => if isWordChar c then some (c :: cs) else findMatch cs

/-- What the `quality` group `(([0-9]*[.])?[0-9]+)?` captures at a given
position: the leftmost-first strategy first tries the `[0-9]*[.]` prefix with
the maximal digit run (shorter runs cannot be followed by `[.]`), then falls
back to a bare `[0-9]+` run, then to capturing nothing. -/
def qualityCapture (r : List Char) : Option (List Char) :=
  let d1 := r.takeWhile Char.isDigit
  match r.dropWhile Char.isDigit with
  | '.' :: r2 =>
    let d2 := r2.takeWhile Char.isDigit
    if d2.isEmpty then if d1.isEmpty then none else some d1
    else some (d1 ++ '.' :: d2)
  | _ => if d1.isEmpty then none else some d1

/-- The named capture groups of a successful `LANG_REGEX.captures` call.
`code` is `Option`-valued to mirror `captures.name("code")`, although the
group, being mandatory, is always captured. -/
structure Captures where
  code : Option (List Char)
  region : Option (List Char)
  quality : Option (List Char)

/-- `LANG_REGEX.captures(segment)`: after the mandatory `code` run, the
optional `-`, the optional `region` run and the optional `;q=<quality>` clause
are each consumed greedily; none of them can force backtracking because
everything after `code` is optional and each literal gate (`-`, `;q=`) is
checked against the next character only. -/
def langCaptures (s : List Char) : Option Captures :=
  match findMatch s with
  | none => none
  | some t =>
    let code := t.takeWhile isWordChar
    let r1 := t.dropWhile isWordChar
    let r2 := match r1 with
      | '-' :: r => r
      | _ => r1
    let region := r2.takeWhile isWordChar
    let r3 := r2.dropWhile isWordChar
    let quality := match r3 with
      | ';' :: 'q' :: '=' :: r4 => qualityCapture r4
      | _ => none
    some ⟨some code, if region.isEmpty then none else some region, quality⟩

/-- Numeric value of a digit list (most significant first). -/
def digitsToNat (ds : List Char) : ℕ :=
  ds.foldl (fun n c => 10 * n + (c.toNat - 48)) 0

/-- Model of `str::parse::<f64>` on the decimal strings relevant here: an
optional integer digit run, an optional `.` followed by a digit run, at least
one digit overall, nothing left over.  The value is exact (a rational) rather
than rounded to the nearest `f64`; see the header comment. -/
def parseDecimal (s : List Char) : Option ℚ :=
  let d1 := s.takeWhile Char.isDigit
  match s.dropWhile Char.isDigit with
  | [] => if d1.isEmpty then none else some (digitsToNat d1)
  | '.' :: r2 =>
    let d2 := r2.takeWhile Char.isDigit
    if (r2.dropWhile Char.isDigit).isEmpty then
      if d1.isEmpty && d2.isEmpty then none
      else some ((digitsToNat d1 : ℚ) + (digitsToNat d2 : ℚ) / (10 : ℚ) ^ d2.length)
    else none
  | _ => none

/-- The `Language` struct (named `Lang` here: Mathlib already declares a
root-level `Language`). -/
structure Lang where
  code : String
  region : Option String
  quality : ℚ
deriving DecidableEq

/-- The `Error` enum. -/
inductive Error where
  | Generic
deriving DecidableEq

/-- The struct literal inside `Language::from`: `code` falls back to
`"unknown"` when the capture is absent, `region` is passed through, and
`quality` defaults to `1.0` when the group is absent and to `0.0` when the
captured text fails to parse (`parse().unwrap_or(0.0)`). -/
def Lang.ofCaptures (caps : Captures) : Lang :=
  { code := (caps.code.map fun cs => String.mk cs).getD "unknown"
    region := caps.region.map fun cs => String.mk cs
    quality := (caps.quality.map fun cs => (parseDecimal cs).getD 0).getD 1 }

/-- `Language::from(segment)` on the segment's character list. -/
def Lang.fromChars (part : List Char) : Except Error Lang :=
  match langCaptures part with
  | some caps => Except.ok (Lang.ofCaptures caps)
  | none => Except.error Error.Generic

/-- `Language::from(segment)` (`from` is a Lean keyword, hence the name). -/
def Lang.fromSegment (segment : String) : Except Error Lang :=
  Lang.fromChars segment.data

/-- `str::split(",")`: the comma-separated pieces, keeping empty pieces, with
`[[]]` for the empty input (Rust's `"".split(",")` yields one empty piece). -/
def splitComma : List Char → List (List Char)
  | [] => [[]]
  | c :: cs =>
    if c = ',' then [] :: splitComma cs
    else match splitComma cs with
      | [] => [[c]]
      | p :: ps => (c :: p) :: ps

/-- The loop of `parse_accept_language`: `if let Ok(language) = Language::from(part)`
pushes successes and silently drops failures, in header order. -/
def parseLanguages (chars : List Char) : List Lang :=
  (splitComma chars).filterMap fun part =>
    match Lang.fromChars part with
    | Except.ok language => some language
    | Except.error _ => none

/-- `parse_accept_language(header)`. -/
def parse_accept_language (header : String) : List Lang :=
  parseLanguages header.data

/-- The `Y10n` struct (only the `translations` field matters to the core). -/
structure Y10n where
  translations : List (String × Yaml)

/-- `Y10n::localize`: clone the stored tree of every requested language that is
present, then merge them in reverse order into a fresh empty mapping. -/
def Y10n.localize (self : Y10n) (languages : List Lang) : Yaml :=
  let values := languages.filterMap fun lang => storeGet self.translations lang.code
  values.reverse.foldl mergeYaml (Yaml.map [])

/-- Lookup in a merged tree (a plain `Mapping::get` once the tree is known to
be a mapping; `none` on non-mappings). -/
def lookupYaml : Yaml → Yaml → Option Yaml
  | Yaml.map m, k => mapLookup m k
  | _, _ => none

/-- The keys of a mapping's entry list are pairwise distinct — the invariant
`serde_yaml::Mapping` maintains. -/
def keysNodup (entries : List (Yaml × Yaml)) : Prop :=
  (entries.map Prod.fst).Nodup

/-! ## Lookup lemmas for mapping entry lists -/

theorem mapLookup_setKey_self {a : List (Yaml × Yaml)} {k w : Yaml} (v : Yaml)
    (h : mapLookup a k = some w) : mapLookup (setKey a k v) k = some v := by
  induction a with
  | nil => simp [mapLookup] at h
  | cons p rest ih =>
    obtain ⟨k', v'⟩ := p
    by_cases hk : k' = k
    · simp [mapLookup, setKey, hk]
    · simp [mapLookup, setKey, hk] at h ⊢
      exact ih h

theorem mapLookup_setKey_ne {k' k : Yaml} (a : List (Yaml × Yaml)) (v : Yaml)
    (hne : k' ≠ k) : mapLookup (setKey a k' v) k = mapLookup a k := by
  induction a with
  | nil => simp [setKey]
  | cons p rest ih =>
    obtain ⟨k'', v''⟩ := p
    by_cases hk : k'' = k'
    · subst hk
      simp [mapLookup, setKey, hne]
    · simp [mapLookup, setKey, hk]
      by_cases hkk : k'' = k
      · simp [hkk]
      · simp [hkk, ih]

theorem mapLookup_append_ne {k' k : Yaml} (a : List (Yaml × Yaml)) (v : Yaml)
    (hne : k' ≠ k) : mapLookup (a ++ [(k', v)]) k = mapLookup a k := by
  induction a with
  | nil => simp [mapLookup, hne]
  | cons p rest ih =>
    obtain ⟨k'', v''⟩ := p
    by_cases hk : k'' = k
    · simp [mapLookup, hk]
    · simp [mapLookup, hk, ih]

theorem mapLookup_append_self {a : List (Yaml × Yaml)} {k : Yaml} (v : Yaml)
    (h : mapLookup a k = none) : mapLookup (a ++ [(k, v)]) k = some v := by
  induction a with
  | nil => simp [mapLookup]
  | cons p rest ih =>
    obtain ⟨k'', v''⟩ := p
    by_cases hk : k'' = k
    · simp [mapLookup, hk] at h
    · simp [mapLookup, hk] at h ⊢
      exact ih h

theorem mapLookup_eq_none_iff {b : List (Yaml × Yaml)} {k : Yaml} :
    mapLookup b k = none ↔ ∀ p ∈ b, p.1 ≠ k := by
  induction b with
  | nil => simp [mapLookup]
  | cons p rest ih =>
    obtain ⟨k', v'⟩ := p
    by_cases hk : k' = k
    · simp [mapLookup, hk]
    · simp [mapLookup, hk, ih]

/-! ## Per-key behaviour of one merge iteration -/

theorem mergeOne_lookup_ne {k' k : Yaml} (a : List (Yaml × Yaml)) (v : Yaml)
    (hne : k' ≠ k) : mapLookup (mergeOne a k' v) k = mapLookup a k := by
  unfold mergeOne
  cases h : mapLookup a k' with
  | none => simp [mapLookup_append_ne a v hne]
  | some w =>
    by_cases hs : v.is_sequence && w.is_sequence
    · simp [hs, mapLookup_setKey_ne _ _ hne]
    · simp [hs, mapLookup_setKey_ne _ _ hne]

theorem mergeOne_lookup_seq {a : List (Yaml × Yaml)} {k : Yaml} {xs : List Yaml}
    (ys : List Yaml) (h : mapLookup a k = some (Yaml.seq xs)) :
    mapLookup (mergeOne a k (Yaml.seq ys)) k = some (Yaml.seq (xs ++ ys)) := by
  unfold mergeOne
  rw [h]
  simp [Yaml.is_sequence, Yaml.seqItems]
  exact mapLookup_setKey_self _ h

theorem mergeYaml_of_not_both {a b : Yaml}
    (h : a.is_mapping = false ∨ b.is_mapping = false) : mergeYaml a b = b := by
  cases a <;> cases b <;> simp_all [mergeYaml, Yaml.is_mapping]

theorem mergeOne_lookup_scalar {a : List (Yaml × Yaml)} {k : Yaml} (v : Yaml)
    (hm : v.is_mapping = false) (hs : v.is_sequence = false) :
    mapLookup (mergeOne a k v) k = some v := by
  unfold mergeOne
  cases h : mapLookup a k with
  | none => exact mapLookup_append_self v h
  | some w =>
    simp [hs]
    rw [mergeYaml_of_not_both (Or.inr hm)]
    exact mapLookup_setKey_self _ h

/-! ## Per-key behaviour of the whole source-entry loop -/

theorem mergeEntries_lookup_of_absent {k : Yaml} {b : List (Yaml × Yaml)}
    (a : List (Yaml × Yaml)) (hb : ∀ p ∈ b, p.1 ≠ k) :
    mapLookup (mergeEntries a b) k = mapLookup a k := by
  induction b generalizing a with
  | nil => simp [mergeEntries]
  | cons p rest ih =>
    obtain ⟨k', v'⟩ := p
    have hk' : k' ≠ k := hb (k', v') (by simp)
    have hrest : ∀ p ∈ rest, p.1 ≠ k := fun p hp => hb p (by simp [hp])
    simp only [mergeEntries]
    rw [ih _ hrest, mergeOne_lookup_ne a v' hk']

theorem mergeEntries_lookup_seq {b : List (Yaml × Yaml)} {k : Yaml} {ys : List Yaml}
    (hnodup : keysNodup b) (hb : mapLookup b k = some (Yaml.seq ys)) :
    ∀ a xs, mapLookup a k = some (Yaml.seq xs) →
      mapLookup (mergeEntries a b) k = some (Yaml.seq (xs ++ ys)) := by
  induction b with
  | nil => simp [mapLookup] at hb
  | cons p rest ih =>
    obtain ⟨k', v'⟩ := p
    intro a xs ha
    by_cases hk : k' = k
    · subst hk
      simp [mapLookup] at hb
      subst hb
      simp only [mergeEntries]
      have hrest : ∀ p ∈ rest, p.1 ≠ k' := by
        intro p hp hcontra
        have hmem : p.1 ∈ rest.map Prod.fst := List.mem_map_of_mem Prod.fst hp
        rw [hcontra] at hmem
        exact (List.nodup_cons.mp hnodup).1 hmem
      rw [mergeEntries_lookup_of_absent _ hrest]
      exact mergeOne_lookup_seq ys ha
    · simp only [mapLookup, if_neg hk] at hb
      simp only [mergeEntries]
      exact ih (List.nodup_cons.mp hnodup).2 hb (mergeOne a k' v')
        xs (by rw [mergeOne_lookup_ne a v' hk, ha])

theorem mergeEntries_lookup_scalar {b : List (Yaml × Yaml)} {k v : Yaml}
    (hnodup : keysNodup b) (hb : mapLookup b k = some v)
    (hm : v.is_mapping = false) (hs : v.is_sequence = false) :
    ∀ a, mapLookup (mergeEntries a b) k = some v := by
  induction b with
  | nil => simp [mapLookup] at hb
  | cons p rest ih =>
    obtain ⟨k', v'⟩ := p
    intro a
    by_cases hk : k' = k
    · subst hk
      simp [mapLookup] at hb
      subst hb
      simp only [mergeEntries]
      have hrest : ∀ p ∈ rest, p.1 ≠ k' := by
        intro p hp hcontra
        have hmem : p.1 ∈ rest.map Prod.fst := List.mem_map_of_mem Prod.fst hp
        rw [hcontra] at hmem
        exact (List.nodup_cons.mp hnodup).1 hmem
      rw [mergeEntries_lookup_of_absent _ hrest]
      exact mergeOne_lookup_scalar v' hm hs
    · simp only [mapLookup, if_neg hk] at hb
      simp only [mergeEntries]
      exact ih (List.nodup_cons.mp hnodup).2 hb (mergeOne a k' v')

/-! ## Merge and localize at the tree level -/

theorem mergeYaml_map_map (a b : List (Yaml × Yaml)) :
    mergeYaml (Yaml.map a) (Yaml.map b) = Yaml.map (mergeEntries a b) := by
  simp [mergeYaml]

theorem lookupYaml_mergeYaml_absent {t1 : List (Yaml × Yaml)} {k : Yaml} (a : Yaml)
    (h : mapLookup t1 k = none) :
    lookupYaml (mergeYaml a (Yaml.map t1)) k = lookupYaml a k := by
  cases a with
  | map am =>
    rw [mergeYaml_map_map]
    simp only [lookupYaml]
    exact mergeEntries_lookup_of_absent am (mapLookup_eq_none_iff.mp h)
  | null => rw [mergeYaml_of_not_both (Or.inl (by rfl))]; simp [lookupYaml, h]
  | bool b => rw [mergeYaml_of_not_both (Or.inl (by rfl))]; simp [lookupYaml, h]
  | num n => rw [mergeYaml_of_not_both (Or.inl (by rfl))]; simp [lookupYaml, h]
  | str s => rw [mergeYaml_of_not_both (Or.inl (by rfl))]; simp [lookupYaml, h]
  | seq xs => rw [mergeYaml_of_not_both (Or.inl (by rfl))]; simp [lookupYaml, h]

theorem lookupYaml_mergeYaml_scalar {t1 : List (Yaml × Yaml)} {k v : Yaml} (a : Yaml)
    (hnodup : keysNodup t1) (hb : mapLookup t1 k = some v)
    (hm : v.is_mapping = false) (hs : v.is_sequence = false) :
    lookupYaml (mergeYaml a (Yaml.map t1)) k = some v := by
  cases a with
  | map am =>
    rw [mergeYaml_map_map]
    simp only [lookupYaml]
    exact mergeEntries_lookup_scalar hnodup hb hm hs am
  | null => rw [mergeYaml_of_not_both (Or.inl (by rfl))]; simp [lookupYaml, hb]
  | bool b => rw [mergeYaml_of_not_both (Or.inl (by rfl))]; simp [lookupYaml, hb]
  | num n => rw [mergeYaml_of_not_both (Or.inl (by rfl))]; simp [lookupYaml, hb]
  | str s => rw [mergeYaml_of_not_both (Or.inl (by rfl))]; simp [lookupYaml, hb]
  | seq xs => rw [mergeYaml_of_not_both (Or.inl (by rfl))]; simp [lookupYaml, hb]

theorem localize_nil (store : List (String × Yaml)) :
    Y10n.localize ⟨store⟩ [] = Yaml.map [] := by
  simp [Y10n.localize]

theorem localize_cons_found (store : List (String × Yaml)) (l : Lang) (rest : List Lang)
    (t : Yaml) (h : storeGet store l.code = some t) :
    Y10n.localize ⟨store⟩ (l :: rest) = mergeYaml (Y10n.localize ⟨store⟩ rest) t := by
  simp [Y10n.localize, h, List.foldl_append]

theorem localize_cons_missing (store : List (String × Yaml)) (l : Lang) (rest : List Lang)
    (h : storeGet store l.code = none) :
    Y10n.localize ⟨store⟩ (l :: rest) = Y10n.localize ⟨store⟩ rest := by
  simp [Y10n.localize, h]

/-- The translation store of the spec's worked example: `en` maps `greeting`
to `"hi"` and `secret` to `"pancakes"`; `de` maps `greeting` to `"moin moin"`. -/
def demoStore : List (String × Yaml) :=
  [("en", Yaml.map [(Yaml.str "greeting", Yaml.str "hi"),
                    (Yaml.str "secret", Yaml.str "pancakes")]),
   ("de", Yaml.map [(Yaml.str "greeting", Yaml.str "moin moin")])]

/-! ## Claim C1 -/

/-- C1: when the source value at key `k` is a sequence and the destination
already holds a sequence at `k`, `merge_yaml` stores the concatenation of the
destination's elements followed by the source's elements at `k` (append, not
replacement). -/
theorem c1_merge_appends_sequences (a b : List (Yaml × Yaml)) (k : Yaml)
    (xs ys : List Yaml) (hb_nodup : keysNodup b)
    (ha : mapLookup a k = some (Yaml.seq xs))
    (hb : mapLookup b k = some (Yaml.seq ys)) :
    lookupYaml (mergeYaml (Yaml.map a) (Yaml.map b)) k = some (Yaml.seq (xs ++ ys)) := by
  rw [mergeYaml_map_map]
  exact mergeEntries_lookup_seq hb_nodup hb a xs ha

/-- Witness for C1 at the spec's `tags` example: destination `tags: [a, b]`,
source `tags: [c]`, merged `tags: [a, b, c]`. -/
theorem c1_witness :
    lookupYaml (mergeYaml
        (Yaml.map [(Yaml.str "tags", Yaml.seq [Yaml.str "a", Yaml.str "b"])])
        (Yaml.map [(Yaml.str "tags", Yaml.seq [Yaml.str "c"])]))
      (Yaml.str "tags")
      = some (Yaml.seq [Yaml.str "a", Yaml.str "b", Yaml.str "c"]) := by
  have h := c1_merge_appends_sequences
    [(Yaml.str "tags", Yaml.seq [Yaml.str "a", Yaml.str "b"])]
    [(Yaml.str "tags", Yaml.seq [Yaml.str "c"])]
    (Yaml.str "tags") [Yaml.str "a", Yaml.str "b"] [Yaml.str "c"]
    (by simp [keysNodup]) (by simp [mapLookup]) (by simp [mapLookup])
  simpa using h

/-! ## Claim C5 -/

/-- C5: whenever at least one of destination and source is not map-like, the
source replaces the destination wholesale; in particular merging `x: 2` into
`x: 1` yields `x: 2`. -/
theorem c5_nonmap_source_replaces (a b : Yaml)
    (h : a.is_mapping = false ∨ b.is_mapping = false) :
    mergeYaml a b = b ∧
      mergeYaml (Yaml.map [(Yaml.str "x", Yaml.num 1)])
          (Yaml.map [(Yaml.str "x", Yaml.num 2)])
        = Yaml.map [(Yaml.str "x", Yaml.num 2)] := by
  refine ⟨mergeYaml_of_not_both h, ?_⟩
  simp [mergeYaml, mergeEntries, mergeOne, mapLookup, setKey, Yaml.is_sequence]

/-- Witness for C5: merging the scalar `2` over the sequence `[1]` replaces it. -/
theorem c5_witness :
    mergeYaml (Yaml.seq [Yaml.num 1]) (Yaml.num 2) = Yaml.num 2 ∧
      mergeYaml (Yaml.map [(Yaml.str "x", Yaml.num 1)])
          (Yaml.map [(Yaml.str "x", Yaml.num 2)])
        = Yaml.map [(Yaml.str "x", Yaml.num 2)] :=
  c5_nonmap_source_replaces (Yaml.seq [Yaml.num 1]) (Yaml.num 2) (Or.inl (by rfl))

/-! ## Claim C2 -/

/-- C2 as frozen is false: when a key is present in two matched trees with
map-valued (hence non-sequence) values, the highest-priority language's value
does not win — the mappings are merged.  With `de: a: (x: 1)` (preferred) and
`en: a: (y: 2)`, the resolved value at `a` is the merged mapping
`(y: 2, x: 1)`, not `de`'s value `(x: 1)`. -/
theorem c2_counterexample :
    mapLookup [(Yaml.str "a", Yaml.map [(Yaml.str "x", Yaml.num 1)])] (Yaml.str "a")
        = some (Yaml.map [(Yaml.str "x", Yaml.num 1)]) ∧
    (Yaml.map [(Yaml.str "x", Yaml.num 1)]).is_sequence = false ∧
    mapLookup [(Yaml.str "a", Yaml.map [(Yaml.str "y", Yaml.num 2)])] (Yaml.str "a")
        = some (Yaml.map [(Yaml.str "y", Yaml.num 2)]) ∧
    (Yaml.map [(Yaml.str "y", Yaml.num 2)]).is_sequence = false ∧
    lookupYaml
        (Y10n.localize
          ⟨[("en", Yaml.map [(Yaml.str "a", Yaml.map [(Yaml.str "y", Yaml.num 2)])]),
            ("de", Yaml.map [(Yaml.str "a", Yaml.map [(Yaml.str "x", Yaml.num 1)])])]⟩
          [⟨"de", none, 1⟩, ⟨"en", none, 1⟩])
        (Yaml.str "a")
      = some (Yaml.map [(Yaml.str "y", Yaml.num 2), (Yaml.str "x", Yaml.num 1)]) ∧
    some (Yaml.map [(Yaml.str "y", Yaml.num 2), (Yaml.str "x", Yaml.num 1)])
      ≠ some (Yaml.map [(Yaml.str "x", Yaml.num 1)]) := by
  refine ⟨by simp [mapLookup], rfl, by simp [mapLookup], rfl, ?_, by simp⟩
  simp [Y10n.localize, storeGet, mergeYaml, mergeEntries, mergeOne, mapLookup,
    setKey, Yaml.is_sequence, lookupYaml]

/-- C2 (amended): the spec's example holds (`greeting` is `de`'s value,
`secret` falls back to `en`), and in general, for a key whose highest-priority
value is neither a mapping nor a sequence, that value wins, while keys absent
from the highest-priority tree are resolved exactly as they would be without
that language; map-valued conflicts are merged recursively instead. -/
theorem c2_highest_priority_wins (store : List (String × Yaml)) (l1 : Lang)
    (rest : List Lang) (t1 : List (Yaml × Yaml)) (k v : Yaml)
    (hget : storeGet store l1.code = some (Yaml.map t1)) (hnodup : keysNodup t1) :
    (mapLookup t1 k = some v → v.is_mapping = false → v.is_sequence = false →
      lookupYaml (Y10n.localize ⟨store⟩ (l1 :: rest)) k = some v) ∧
    (mapLookup t1 k = none →
      lookupYaml (Y10n.localize ⟨store⟩ (l1 :: rest)) k
        = lookupYaml (Y10n.localize ⟨store⟩ rest) k) ∧
    lookupYaml (Y10n.localize ⟨demoStore⟩ [⟨"de", none, 1⟩, ⟨"en", none, 1⟩])
        (Yaml.str "greeting") = some (Yaml.str "moin moin") ∧
    lookupYaml (Y10n.localize ⟨demoStore⟩ [⟨"de", none, 1⟩, ⟨"en", none, 1⟩])
        (Yaml.str "secret") = some (Yaml.str "pancakes") := by
  refine ⟨?_, ?_, ?_, ?_⟩
  · intro hk hm hs
    rw [localize_cons_found store l1 rest _ hget]
    exact lookupYaml_mergeYaml_scalar _ hnodup hk hm hs
  · intro hk
    rw [localize_cons_found store l1 rest _ hget]
    exact lookupYaml_mergeYaml_absent _ hk
  · simp [Y10n.localize, demoStore, storeGet, mergeYaml, mergeEntries, mergeOne,
      mapLookup, setKey, Yaml.is_sequence, lookupYaml]
  · simp [Y10n.localize, demoStore, storeGet, mergeYaml, mergeEntries, mergeOne,
      mapLookup, setKey, Yaml.is_sequence, lookupYaml]

/-- Witness for C2 at the spec's example: `de`'s `greeting` wins over `en`'s. -/
theorem c2_witness :
    lookupYaml (Y10n.localize ⟨demoStore⟩ [⟨"de", none, 1⟩, ⟨"en", none, 1⟩])
        (Yaml.str "greeting") = some (Yaml.str "moin moin") :=
  (c2_highest_priority_wins demoStore ⟨"de", none, 1⟩ [⟨"en", none, 1⟩]
      [(Yaml.str "greeting", Yaml.str "moin moin")]
      (Yaml.str "greeting") (Yaml.str "moin moin")
      (by simp [demoStore, storeGet]) (by simp [keysNodup])).1
    (by simp [mapLookup]) rfl rfl

/-! ## Character-scanning helper lemmas -/

theorem mem_takeWhile_pred {p : Char → Bool} : ∀ {l : List Char} {c : Char},
    c ∈ l.takeWhile p → p c = true := by
  intro l
  induction l with
  | nil => intro c hc; simp [List.takeWhile] at hc
  | cons x xs ih =>
    intro c hc
    by_cases hx : p x
    · simp [List.takeWhile, hx] at hc
      rcases hc with rfl | hc
      · exact hx
      · exact ih hc
    · simp [List.takeWhile, hx] at hc

theorem takeWhile_of_all {p : Char → Bool} {l : List Char}
    (h : ∀ c ∈ l, p c = true) : l.takeWhile p = l := by
  induction l with
  | nil => rfl
  | cons x xs ih =>
    have hx := h x (by simp)
    have hxs := ih fun c hc => h c (by simp [hc])
    simp [List.takeWhile, hx, hxs]

theorem dropWhile_of_all {p : Char → Bool} {l : List Char}
    (h : ∀ c ∈ l, p c = true) : l.dropWhile p = [] := by
  induction l with
  | nil => rfl
  | cons x xs ih =>
    have hx := h x (by simp)
    have hxs := ih fun c hc => h c (by simp [hc])
    simp [List.dropWhile, hx, hxs]

theorem takeWhile_append_stop {p : Char → Bool} {l1 : List Char} {x : Char}
    (l2 : List Char) (h1 : ∀ c ∈ l1, p c = true) (hx : p x = false) :
    (l1 ++ x :: l2).takeWhile p = l1 ∧ (l1 ++ x :: l2).dropWhile p = x :: l2 := by
  induction l1 with
  | nil => simp [List.takeWhile, List.dropWhile, hx]
  | cons y ys ih =>
    have hy := h1 y (by simp)
    have := ih fun c hc => h1 c (by simp [hc])
    simp [List.takeWhile, List.dropWhile, hy, this.1, this.2]

/-- Every string the quality capture group can produce parses as a number:
the group's own grammar is a subset of what `str::parse::<f64>` accepts, so
the `unwrap_or(0.0)` fallback in `Language::from` never fires. -/
theorem qualityCapture_parses {r q : List Char}
    (h : qualityCapture r = some q) : (parseDecimal q).isSome = true := by
  unfold qualityCapture at h
  have hd1 : ∀ c ∈ r.takeWhile Char.isDigit, Char.isDigit c = true :=
    fun c hc => mem_takeWhile_pred hc
  split at h
  case h_1 r2 heq =>
    by_cases h2 : (r2.takeWhile Char.isDigit).isEmpty
    · simp only [h2, if_true] at h
      by_cases h1 : (r.takeWhile Char.isDigit).isEmpty
      · simp [h1] at h
      · simp only [h1, if_false] at h
        injection h with h
        subst h
        unfold parseDecimal
        rw [takeWhile_of_all hd1, dropWhile_of_all hd1]
        simp [h1]
    · simp only [h2, if_false] at h
      injection h with h
      subst h
      have hd2 : ∀ c ∈ r2.takeWhile Char.isDigit, Char.isDigit c = true :=
        fun c hc => mem_takeWhile_pred hc
      have hs := takeWhile_append_stop (x := '.')
        ('.' :: r2.takeWhile Char.isDigit).tail hd1 (by decide)
      unfold parseDecimal
      rw [List.tail_cons] at hs
      rw [hs.1, hs.2]
      simp only []
      rw [takeWhile_of_all hd2, dropWhile_of_all hd2]
      simp [h2]
  case h_2 =>
    by_cases h1 : (r.takeWhile Char.isDigit).isEmpty
    · simp [h1] at h
    · simp only [h1, if_false] at h
      injection h with h
      subst h
      unfold parseDecimal
      rw [takeWhile_of_all hd1, dropWhile_of_all hd1]
      simp [h1]

/-- Every value `parseDecimal` produces is nonnegative. -/
theorem parseDecimal_nonneg {cs : List Char} {q : ℚ}
    (h : parseDecimal cs = some q) : 0 ≤ q := by
  unfold parseDecimal at h
  split at h
  · dsimp only at h
    split_ifs at h
    injection h with h
    subst h
    positivity
  · dsimp only at h
    split_ifs at h
    injection h with h
    subst h
    positivity
  · exact absurd h (by simp)

/-- `findMatch` fails exactly on segments without a word character. -/
theorem findMatch_eq_none_iff {l : List Char} :
    findMatch l = none ↔ ∀ c ∈ l, isWordChar c = false := by
  induction l with
  | nil => simp [findMatch]
  | cons x xs ih =>
    by_cases hx : isWordChar x
    · simp [findMatch, hx]
    · simp only [Bool.not_eq_true] at hx
      simp [findMatch, hx, ih]

/-! ## Header-splitting lemmas -/

theorem splitComma_ne_nil (l : List Char) : splitComma l ≠ [] := by
  induction l with
  | nil => simp [splitComma]
  | cons c cs ih =>
    by_cases hc : c = ','
    · simp [splitComma, hc]
    · simp only [splitComma, if_neg hc]
      cases h : splitComma cs with
      | nil => exact absurd h ih
      | cons p ps => simp

theorem splitComma_append (l1 l2 : List Char) :
    splitComma (l1 ++ ',' :: l2) = splitComma l1 ++ splitComma l2 := by
  induction l1 with
  | nil => simp [splitComma]
  | cons c cs ih =>
    by_cases hc : c = ','
    · subst hc
      simp [splitComma, ih]
    · cases h : splitComma cs with
      | nil => exact absurd h (splitComma_ne_nil cs)
      | cons p ps =>
        simp only [List.cons_append, splitComma, if_neg hc, List.append_eq, ih, h]

theorem parseLanguages_append (l1 l2 : List Char) :
    parseLanguages (l1 ++ ',' :: l2) = parseLanguages l1 ++ parseLanguages l2 := by
  unfold parseLanguages
  rw [splitComma_append, List.filterMap_append]

/-! ## Claim C7 -/

/-- C7: segment parsing extracts the fields of the grammar
`code[-region][;q=quality]`: `en-US` gives code `en`, region `US`, default
quality 1; `de-DE;q=0.3` gives quality 3/10; `de;q=0.5` gives no region and
quality 1/2. -/
theorem c7_segment_fields :
    Lang.fromSegment "en-US" = Except.ok ⟨"en", some "US", 1⟩ ∧
    Lang.fromSegment "de-DE;q=0.3" = Except.ok ⟨"de", some "DE", 3/10⟩ ∧
    Lang.fromSegment "de;q=0.5" = Except.ok ⟨"de", none, 1/2⟩ := by
  refine ⟨rfl, ?_, ?_⟩
  · have h : ((0 : ℚ) + 3 / (10 : ℚ) ^ 1) = 3/10 := by norm_num
    rw [← h]
    rfl
  · have h : ((0 : ℚ) + 5 / (10 : ℚ) ^ 1) = 1/2 := by norm_num
    rw [← h]
    rfl

/-! ## Claim C3 -/

/-- C3 fails as frozen: the quality pattern `([0-9]*[.])?[0-9]+` matches any
nonnegative decimal, so `de;q=5` parses with quality 5, outside `[0, 1]`. -/
theorem c3_counterexample :
    Lang.fromSegment "de;q=5" = Except.ok ⟨"de", none, 5⟩ ∧
      ¬((Lang.mk "de" none 5).quality ≤ 1) := by
  constructor
  · have h : ((5 : ℕ) : ℚ) = 5 := by norm_num
    rw [← h]
    rfl
  · show ¬((5 : ℚ) ≤ 1)
    norm_num

/-- The quality computed by the struct literal of `Language::from` is never
negative: it is 1 (absent group), 0 (dead fallback), or a parsed decimal. -/
theorem ofCaptures_quality_nonneg (caps : Captures) :
    0 ≤ (Lang.ofCaptures caps).quality := by
  unfold Lang.ofCaptures
  cases hq : caps.quality with
  | none => simp
  | some cs =>
    cases hp : parseDecimal cs with
    | none => simp [hq, hp]
    | some q => simpa [hq, hp] using parseDecimal_nonneg hp

/-- C3 (amended): every successfully parsed segment has a nonnegative quality
(the bound `quality ≤ 1` claimed by the spec does not hold, see the
counterexample). -/
theorem c3_quality_nonneg (s : String) (l : Lang)
    (h : Lang.fromSegment s = Except.ok l) : 0 ≤ l.quality := by
  unfold Lang.fromSegment Lang.fromChars at h
  split at h
  · injection h with h
    subst h
    exact ofCaptures_quality_nonneg _
  · exact Except.noConfusion h

/-- Witness for C3 at segment `en`. -/
theorem c3_witness :
    Lang.fromSegment "en" = Except.ok ⟨"en", none, 1⟩ ∧
      0 ≤ (Lang.mk "en" none 1).quality :=
  ⟨rfl, c3_quality_nonneg "en" ⟨"en", none, 1⟩ rfl⟩

/-! ## Claim C4 -/

/-- C4 fails as frozen: for `de;q=abc` the quality group captures nothing, so
`Language::from` takes the absent-group default 1.0; the claimed 0.0 never
appears. -/
theorem c4_counterexample :
    Lang.fromSegment "de;q=abc" = Except.ok ⟨"de", none, 1⟩ ∧
      Lang.fromSegment "de;q=" = Except.ok ⟨"de", none, 1⟩ ∧
      (1 : ℚ) ≠ 0 :=
  ⟨rfl, rfl, by norm_num⟩

/-- C4 (amended): a segment whose quality clause is present but malformed is
still accepted, with quality 1.0 (the absent-capture default), not 0.0; the
`unwrap_or(0.0)` fallback is unreachable, because every string the quality
group does capture parses as a number. -/
theorem c4_malformed_quality_accepted (s : List Char) (caps : Captures)
    (q : List Char) (hc : langCaptures s = some caps) (hq : caps.quality = some q) :
    (parseDecimal q).isSome = true ∧
    Lang.fromSegment "de;q=abc" = Except.ok ⟨"de", none, 1⟩ ∧
    Lang.fromSegment "de;q=" = Except.ok ⟨"de", none, 1⟩ := by
  refine ⟨?_, rfl, rfl⟩
  unfold langCaptures at hc
  split at hc
  · exact Option.noConfusion hc
  · injection hc with hc
    subst hc
    dsimp only at hq
    split at hq
    · exact qualityCapture_parses hq
    · exact Option.noConfusion hq

/-- Witness for C4 at the well-formed segment `de;q=0.5`. -/
theorem c4_witness :
    (parseDecimal ['0', '.', '5']).isSome = true ∧
    Lang.fromSegment "de;q=abc" = Except.ok ⟨"de", none, 1⟩ ∧
    Lang.fromSegment "de;q=" = Except.ok ⟨"de", none, 1⟩ :=
  c4_malformed_quality_accepted "de;q=0.5".data
    ⟨some ['d', 'e'], none, some ['0', '.', '5']⟩ ['0', '.', '5'] rfl rfl

/-! ## Claim C10 -/

/-- C10: segment parsing fails exactly when the segment contains no word
character at all; matching is unanchored, so a segment whose first word run is
preceded by non-word characters still parses (e.g. `" en;q=0.7"` gives code
`en`). -/
theorem c10_error_iff_no_word_char (s : String) :
    (Lang.fromSegment s = Except.error Error.Generic ↔
      ∀ c ∈ s.data, isWordChar c = false) ∧
    Lang.fromSegment " en;q=0.7" = Except.ok ⟨"en", none, 7/10⟩ := by
  constructor
  · rw [← findMatch_eq_none_iff]
    unfold Lang.fromSegment Lang.fromChars langCaptures
    cases h : findMatch s.data with
    | none => simp [h]
    | some t => simp [h]
  · have h : ((0 : ℚ) + 7 / (10 : ℚ) ^ 1) = 7/10 := by norm_num
    rw [← h]
    rfl

/-! ## Claim C6 -/

/-- C6: header parsing splits on literal commas and treats the pieces
independently (it distributes over comma concatenation, hence keeps header
order and drops exactly the failing pieces); the result is empty iff every
comma-separated piece fails to parse (an empty header's single empty piece
always fails); a concrete header whose qualities increase shows no
quality-sorting happens; the failing piece of `en,??,de` is dropped while the
others survive in order. -/
theorem c6_header_split_and_drop (h1 h2 header : String) :
    parse_accept_language (h1 ++ "," ++ h2)
        = parse_accept_language h1 ++ parse_accept_language h2 ∧
    (parse_accept_language header = [] ↔
      ∀ part ∈ splitComma header.data,
        Lang.fromChars part = Except.error Error.Generic) ∧
    parse_accept_language "en;q=0.2,de" = [⟨"en", none, 1/5⟩, ⟨"de", none, 1⟩] ∧
    parse_accept_language "en,??,de" = [⟨"en", none, 1⟩, ⟨"de", none, 1⟩] := by
  refine ⟨?_, ?_, ?_, rfl⟩
  · unfold parse_accept_language
    have hdata : (h1 ++ "," ++ h2).data = h1.data ++ ',' :: h2.data := by
      rw [String.data_append, String.data_append]
      show h1.data ++ [','] ++ h2.data = h1.data ++ ',' :: h2.data
      rw [List.append_assoc]
      rfl
    rw [hdata, parseLanguages_append]
  · unfold parse_accept_language parseLanguages
    rw [List.filterMap_eq_nil_iff]
    constructor
    · intro hall part hp
      have h' := hall part hp
      revert h'
      cases h : Lang.fromChars part with
      | ok l => simp
      | error e => cases e; simp [h]
    · intro hall part hp
      rw [hall part hp]
  · have h : ((0 : ℚ) + 2 / (10 : ℚ) ^ 1) = 1/5 := by norm_num
    rw [← h]
    rfl

/-! ## Claim C8 -/

theorem localize_all_missing (store : List (String × Yaml)) :
    ∀ langs : List Lang, (∀ l ∈ langs, storeGet store l.code = none) →
      Y10n.localize ⟨store⟩ langs = Yaml.map []
  | [], _ => localize_nil store
  | l :: rest, h => by
    rw [localize_cons_missing store l rest (h l (by simp))]
    exact localize_all_missing store rest fun l' hl' => h l' (by simp [hl'])

/-- C8: resolution returns the empty mapping (not an error) for an empty
preference list and when no requested code is stored; a descriptor whose code
is absent from the store is silently skipped. -/
theorem c8_missing_is_skipped (store : List (String × Yaml)) (l : Lang)
    (langs rest : List Lang)
    (hall : ∀ l' ∈ langs, storeGet store l'.code = none)
    (hmiss : storeGet store l.code = none) :
    Y10n.localize ⟨store⟩ [] = Yaml.map [] ∧
    Y10n.localize ⟨store⟩ langs = Yaml.map [] ∧
    Y10n.localize ⟨store⟩ (l :: rest) = Y10n.localize ⟨store⟩ rest :=
  ⟨localize_nil store, localize_all_missing store langs hall,
    localize_cons_missing store l rest hmiss⟩

/-- Witness for C8: `fr` is not in the demo store, so it is skipped and a
`fr`-only preference list resolves to the empty mapping. -/
theorem c8_witness :
    Y10n.localize ⟨demoStore⟩ [] = Yaml.map [] ∧
    Y10n.localize ⟨demoStore⟩ [⟨"fr", none, 1⟩] = Yaml.map [] ∧
    Y10n.localize ⟨demoStore⟩ [⟨"fr", none, 1⟩, ⟨"en", none, 1⟩]
      = Y10n.localize ⟨demoStore⟩ [⟨"en", none, 1⟩] :=
  c8_missing_is_skipped demoStore ⟨"fr", none, 1⟩ [⟨"fr", none, 1⟩] [⟨"en", none, 1⟩]
    (by
      intro l' hl'
      simp only [List.mem_singleton] at hl'
      subst hl'
      simp [demoStore, storeGet])
    (by simp [demoStore, storeGet])
